import Mathlib

/-!
Verification development for the nanoclaw `chrome-agent` subsystem: a shallow
embedding of the CDP (remote-debugging) client correlator, the accessibility
snapshot builder with its reference system, the reference resolver, the tab
manager, and the navigation / network-idle controller, together with theorems
settling the spec's claims about them.
-/

set_option maxHeartbeats 1000000

namespace Nanoclaw

deriving instance DecidableEq for Except

/-- Association-list lookup modelling `Map.get`: the value stored at `k`, if any. -/
def alGet {α β : Type} [DecidableEq α] (l : List (α × β)) (k : α) : Option β :=
  (l.find? (fun p => decide (p.1 = k))).map Prod.snd

/-- Association-list update modelling `Map.set`: replace in place, else append. -/
def alSet {α β : Type} [DecidableEq α] (l : List (α × β)) (k : α) (v : β) :
    List (α × β) :=
  if (alGet l k).isSome then l.map (fun p => if p.1 = k then (k, v) else p)
  else l ++ [(k, v)]

/-- Association-list removal modelling `Map.delete`. -/
def alDelete {α β : Type} [DecidableEq α] (l : List (α × β)) (k : α) : List (α × β) :=
  l.filter (fun p => decide (p.1 ≠ k))

theorem alGet_nil {α β : Type} [DecidableEq α] (k : α) :
    alGet ([] : List (α × β)) k = none := rfl

theorem alGet_cons {α β : Type} [DecidableEq α] (p : α × β) (rest : List (α × β))
    (k : α) : alGet (p :: rest) k = if p.1 = k then some p.2 else alGet rest k := by
  by_cases h : p.1 = k <;> simp [alGet, List.find?, h]

theorem alDelete_cons {α β : Type} [DecidableEq α] (p : α × β) (rest : List (α × β))
    (k : α) :
    alDelete (p :: rest) k = if p.1 = k then alDelete rest k else p :: alDelete rest k := by
  by_cases h : p.1 = k <;> simp [alDelete, h]

theorem alGet_append_single_self {α β : Type} [DecidableEq α]
    (l : List (α × β)) (k : α) (v : β) (h : alGet l k = none) :
    alGet (l ++ [(k, v)]) k = some v := by
  induction l with
  | nil => simp [alGet_cons]
  | cons p rest ih =>
      rw [alGet_cons] at h
      by_cases hp : p.1 = k
      · simp [hp] at h
      · rw [List.cons_append, alGet_cons]
        simp only [hp, if_false] at h ⊢
        exact ih h

theorem alGet_append_single_other {α β : Type} [DecidableEq α]
    (l : List (α × β)) (k k' : α) (v : β) (h : k' ≠ k) :
    alGet (l ++ [(k, v)]) k' = alGet l k' := by
  induction l with
  | nil =>
      have : k ≠ k' := fun hc => h hc.symm
      simp [alGet_cons, this, alGet_nil]
  | cons p rest ih =>
      rw [List.cons_append, alGet_cons, alGet_cons]
      by_cases hp : p.1 = k' <;> simp [hp, ih]

theorem alSet_fresh {α β : Type} [DecidableEq α]
    (l : List (α × β)) (k : α) (v : β) (h : alGet l k = none) :
    alSet l k v = l ++ [(k, v)] := by
  simp [alSet, h]

theorem alGet_delete_self {α β : Type} [DecidableEq α] (l : List (α × β)) (k : α) :
    alGet (alDelete l k) k = none := by
  induction l with
  | nil => rfl
  | cons p rest ih =>
      rw [alDelete_cons]
      by_cases hp : p.1 = k
      · simpa [hp] using ih
      · rw [if_neg hp, alGet_cons, if_neg hp]
        exact ih

theorem alGet_delete_other {α β : Type} [DecidableEq α]
    (l : List (α × β)) (k k' : α) (h : k' ≠ k) :
    alGet (alDelete l k) k' = alGet l k' := by
  induction l with
  | nil => rfl
  | cons p rest ih =>
      rw [alDelete_cons, alGet_cons]
      by_cases hp : p.1 = k
      · have hp' : p.1 ≠ k' := fun hc => h (hc ▸ hp)
        rw [if_pos hp, if_neg hp']
        exact ih
      · rw [if_neg hp, alGet_cons]
        by_cases hq : p.1 = k' <;> simp [hq, ih]

/-! ## CDP client correlator (`createCdpClient` in cdp-client.ts)

The connection owns a monotonically increasing `nextId` counter (starting at 1),
a pending map from command id to its continuation, and a listener registry from
event method name to handler set.  The continuation type is abstracted as `α`
(a token identifying the caller's promise); handlers are abstracted as `Nat`
tokens. -/

/-- Outgoing CDP command message `{id, method, params?, sessionId?}`. -/
structure OutMsg where
  id : Nat
  method : String
  params : Option String
  sessionId : Option String
deriving DecidableEq

/-- Mutable state captured by the `createCdpClient` closure. -/
structure CdpState (α : Type) where
  nextId : Nat
  pending : List (Nat × α)
  listeners : List (String × List Nat)
  socketOpen : Bool
deriving DecidableEq

/-- Initial state of a fresh client on an open socket: `nextId = 1`, empty maps. -/
def cdpInit (α : Type) : CdpState α :=
  { nextId := 1, pending := [], listeners := [], socketOpen := true }

/-- `send`: reject immediately when the socket is not open, otherwise allocate
the next id, transmit `{id, method, params?, sessionId?}` and register the
continuation under that id. -/
def cdpSend {α : Type} (s : CdpState α) (method : String) (params : Option String)
    (sessionId : Option String) (cont : α) : Except String (CdpState α × OutMsg) :=
  if s.socketOpen = false then .error "CDP socket not open"
  else
    let id := s.nextId
    .ok ({ s with nextId := id + 1, pending := alSet s.pending id cont },
      { id := id, method := method, params := params, sessionId := sessionId })

/-- How an inbound response settles a pending call. -/
inductive Settled (α : Type) where
  | resolved (cont : α) (result : Option String)
  | rejected (cont : α) (msg : String)
deriving DecidableEq

/-- The response branch of the `ws.on("message")` handler: a message carrying a
numeric id settles the matching continuation — rejecting when `error.message`
is a non-empty string, resolving with `result` otherwise — and an id with no
pending continuation is silently ignored. -/
def handleResponse {α : Type} (s : CdpState α) (respId : Nat)
    (errMsg : Option String) (result : Option String) :
    CdpState α × Option (Settled α) :=
  match alGet s.pending respId with
  | some c =>
      ({ s with pending := alDelete s.pending respId },
        some (match errMsg with
          | some m => if m = "" then .resolved c result else .rejected c m
          | none => .resolved c result))
  | none => (s, none)

/-- `closeWithError` (run on socket `error` and `close` events): reject every
pending continuation with the terminal error, clear the pending map, close the
socket.  The listener registry is left untouched. -/
def closeWithError {α : Type} (s : CdpState α) (err : String) :
    CdpState α × List (α × String) :=
  ({ s with pending := [], socketOpen := false }, s.pending.map (fun p => (p.2, err)))

/-- The client's explicit `close()`: clear the pending map (without settling the
continuations) and close the socket.  The listener registry is left untouched. -/
def cdpClose {α : Type} (s : CdpState α) : CdpState α × List (α × String) :=
  ({ s with pending := [], socketOpen := false }, [])

/-- Invariant maintained by the correlator: every pending id is below `nextId`. -/
def pendingBounded {α : Type} (s : CdpState α) : Prop :=
  ∀ p ∈ s.pending, p.1 < s.nextId

theorem alGet_none_of_not_key {α β : Type} [DecidableEq α]
    (l : List (α × β)) (k : α) (h : ∀ p ∈ l, p.1 ≠ k) : alGet l k = none := by
  induction l with
  | nil => rfl
  | cons p rest ih =>
      rw [alGet_cons, if_neg (h p (List.mem_cons_self p rest))]
      exact ih (fun q hq => h q (List.mem_cons_of_mem p hq))

/-- Claim C1: on an open connection `send` allocates a fresh id and registers
exactly one continuation under it; an inbound response carrying id `n` settles
(resolves, or rejects with the protocol's error message) exactly the pending
call registered under `n`, removing only that entry; a response whose id
matches no pending call is discarded without error and without affecting any
pending call. -/
theorem c1_response_correlation {α : Type} [DecidableEq α] :
    (∀ (s : CdpState α) (m : String) (pa sid : Option String) (c : α),
      s.socketOpen = true → pendingBounded s →
      ∃ s' msg, cdpSend s m pa sid c = .ok (s', msg) ∧
        msg.id = s.nextId ∧ msg.method = m ∧
        alGet s.pending msg.id = none ∧
        alGet s'.pending msg.id = some c ∧
        (∀ k, k ≠ msg.id → alGet s'.pending k = alGet s.pending k) ∧
        pendingBounded s') ∧
    (∀ (s : CdpState α) (n : Nat) (em : String) (res : Option String) (c : α),
      alGet s.pending n = some c → em ≠ "" →
      (handleResponse s n (some em) res).2 = some (Settled.rejected c em)) ∧
    (∀ (s : CdpState α) (n : Nat) (res : Option String) (c : α),
      alGet s.pending n = some c →
      (handleResponse s n none res).2 = some (Settled.resolved c res)) ∧
    (∀ (s : CdpState α) (n : Nat) (em res : Option String) (c : α),
      alGet s.pending n = some c →
      alGet (handleResponse s n em res).1.pending n = none ∧
      (∀ k, k ≠ n → alGet (handleResponse s n em res).1.pending k = alGet s.pending k) ∧
      (handleResponse s n em res).1.listeners = s.listeners ∧
      (handleResponse s n em res).1.socketOpen = s.socketOpen) ∧
    (∀ (s : CdpState α) (n : Nat) (em res : Option String),
      alGet s.pending n = none → handleResponse s n em res = (s, none)) := by
  refine ⟨?_, ?_, ?_, ?_, ?_⟩
  · intro s m pa sid c hopen hinv
    have hfresh : alGet s.pending s.nextId = none :=
      alGet_none_of_not_key _ _ (fun p hp => Nat.ne_of_lt (hinv p hp))
    refine ⟨{ s with nextId := s.nextId + 1, pending := alSet s.pending s.nextId c },
      { id := s.nextId, method := m, params := pa, sessionId := sid },
      ?_, rfl, rfl, hfresh, ?_, ?_, ?_⟩
    · simp [cdpSend, hopen]
    · simp only [alSet_fresh s.pending s.nextId c hfresh]
      exact alGet_append_single_self _ _ _ hfresh
    · intro k hk
      simp only [alSet_fresh s.pending s.nextId c hfresh]
      exact alGet_append_single_other _ _ _ _ hk
    · intro p hp
      rw [alSet_fresh s.pending s.nextId c hfresh] at hp
      rcases List.mem_append.mp hp with h | h
      · exact Nat.lt_succ_of_lt (hinv p h)
      · simp at h
        simp [h]
  · intro s n em res c hc hem
    simp [handleResponse, hc, hem]
  · intro s n res c hc
    simp [handleResponse, hc]
  · intro s n em res c hc
    refine ⟨?_, ?_, ?_, ?_⟩ <;> simp [handleResponse, hc, alGet_delete_self]
    intro k hk
    exact alGet_delete_other _ _ _ hk
  · intro s n em res h
    simp [handleResponse, h]

/-- Concrete connection state used to witness / refute the teardown claims:
two commands in flight, one registered event listener. -/
def cdpStateEx : CdpState Nat :=
  { nextId := 3, pending := [(1, 10), (2, 20)],
    listeners := [("Page.loadEventFired", [7])], socketOpen := true }

theorem c1_response_correlation_witness :
    (handleResponse cdpStateEx 1 (some "boom") none).2 = some (Settled.rejected 10 "boom") ∧
    (handleResponse cdpStateEx 1 (some "boom") none).1.pending = [(2, 20)] ∧
    handleResponse cdpStateEx 5 none (some "r") = (cdpStateEx, none) := by
  refine ⟨?_, by decide, ?_⟩
  · exact (c1_response_correlation (α := Nat)).2.1 cdpStateEx 1 "boom" none 10
      (by decide) (by decide)
  · exact (c1_response_correlation (α := Nat)).2.2.2.2 cdpStateEx 5 none (some "r")
      (by decide)

/-- Claim C2 counterexample: the explicit `close()` clears the pending map
without settling the still-pending commands (no rejection is delivered), and
neither teardown path clears the listener registry — refuting the claim that
every teardown path fails all pending commands and clears all maps. -/
theorem c2_counterexample :
    cdpStateEx.pending ≠ [] ∧
    (cdpClose cdpStateEx).2 = [] ∧
    (closeWithError cdpStateEx "CDP socket closed").1.listeners =
      [("Page.loadEventFired", [7])] ∧
    (cdpClose cdpStateEx).1.listeners = [("Page.loadEventFired", [7])] := by
  decide

/-- Claim C2 (amended): teardown triggered by a socket error or socket close
rejects every still-pending command with the terminal error and clears the
pending map; an explicit `close()` clears the pending map without settling
those commands; the listener registry survives both paths; and every `send`
issued after either teardown is rejected immediately with the not-connected
error, transmitting nothing. -/
theorem c2_teardown_amended {α : Type} (s : CdpState α) (err : String) :
    ((closeWithError s err).2 = s.pending.map (fun p => (p.2, err)) ∧
      (closeWithError s err).2.length = s.pending.length ∧
      (∀ p ∈ s.pending, (p.2, err) ∈ (closeWithError s err).2) ∧
      (closeWithError s err).1.pending = [] ∧
      (closeWithError s err).1.listeners = s.listeners) ∧
    ((cdpClose s).2 = [] ∧ (cdpClose s).1.pending = [] ∧
      (cdpClose s).1.listeners = s.listeners) ∧
    (∀ m pa sid c,
      cdpSend (closeWithError s err).1 m pa sid c = .error "CDP socket not open" ∧
      cdpSend (cdpClose s).1 m pa sid c = .error "CDP socket not open") := by
  refine ⟨⟨rfl, by simp [closeWithError], ?_, rfl, rfl⟩, ⟨rfl, rfl, rfl⟩, ?_⟩
  · intro p hp
    exact List.mem_map.mpr ⟨p, hp, rfl⟩
  · intro m pa sid c
    exact ⟨by simp [cdpSend, closeWithError], by simp [cdpSend, cdpClose]⟩

theorem c2_teardown_amended_witness :
    (closeWithError cdpStateEx "CDP socket closed").2 =
      [(10, "CDP socket closed"), (20, "CDP socket closed")] ∧
    cdpSend (cdpClose cdpStateEx).1 "Page.enable" none none 99 =
      .error "CDP socket not open" := by
  refine ⟨?_, ?_⟩
  · have h := (c2_teardown_amended cdpStateEx "CDP socket closed").1.1
    simpa [cdpStateEx] using h
  · exact ((c2_teardown_amended cdpStateEx "CDP socket closed").2.2
      "Page.enable" none none 99).2

/-! ## Accessibility snapshot builder (accessibility.ts)

`formatAriaSnapshot` flattens the raw CDP AX tree by an explicit-stack DFS;
`buildSnapshot` renders the flattened nodes and assigns `e<N>` reference
tokens. -/

/-- A raw AX property value (`{ value?: string | number | boolean | ... }`),
collapsed to the inner value; `other` stands for any non-scalar value. -/
inductive AXVal where
  | str (s : String)
  | num (n : Int)
  | boolean (b : Bool)
  | other
deriving DecidableEq

/-- `axValue`: extract a scalar string, coercing number/boolean to text and
everything else (missing property included) to the empty string. -/
def axValue : Option AXVal → String
  | some (.str s) => s
  | some (.num n) => toString n
  | some (.boolean b) => if b then "true" else "false"
  | some .other => ""
  | none => ""

/-- Raw CDP accessibility node (`RawAXNode`). -/
structure RawAXNode where
  nodeId : Option String
  role : Option AXVal
  name : Option AXVal
  value : Option AXVal
  description : Option AXVal
  childIds : Option (List String)
  backendDOMNodeId : Option Nat
deriving DecidableEq

/-- Flattened node (`AriaSnapshotNode`); the optional string fields are encoded
with `""` standing for the omitted field, exactly as `axValue` produces and the
renderer consumes them. -/
structure AriaSnapshotNode where
  ref : String
  role : String
  name : String
  value : String
  description : String
  backendDOMNodeId : Option Nat
  depth : Nat
deriving DecidableEq

/-- `byId` index: a map from each truthy (present, non-empty) `nodeId` to its
node, later entries overwriting earlier ones as `Map.set` does. -/
def axIndex (nodes : List RawAXNode) : List (String × RawAXNode) :=
  nodes.foldl
    (fun m n =>
      match n.nodeId with
      | some id => if id = "" then m else alSet m id n
      | none => m)
    []

/-- The `referenced` set: every id listed in any node's `childIds` (a node's
own children included). -/
def axReferenced (nodes : List RawAXNode) : List String :=
  nodes.foldl (fun acc n => acc ++ n.childIds.getD []) []

/-- The root-candidate test of `nodes.find(...)`: a truthy `nodeId` that is not
in the `referenced` set. -/
def axRootCandidate (referenced : List String) (n : RawAXNode) : Bool :=
  match n.nodeId with
  | some id => decide (id ≠ "") && !(referenced.contains id)
  | none => false

/-- Root selection: first candidate, else `nodes[0]`. -/
def axRoot (nodes : List RawAXNode) : Option RawAXNode :=
  (nodes.find? (axRootCandidate (axReferenced nodes))).orElse (fun _ => nodes.head?)

/-- The starting id of the traversal; `none` when `!root?.nodeId` aborts with
an empty snapshot. -/
def axRootId (nodes : List RawAXNode) : Option String :=
  match axRoot nodes with
  | some r =>
      match r.nodeId with
      | some id => if id = "" then none else some id
      | none => none
  | none => none

/-- Build one flattened node from a visited raw node: `ref` is `ax<N>` with `N`
the emission index + 1, an empty role becomes `"unknown"`. -/
def mkFlat (n : RawAXNode) (outLen : Nat) (depth : Nat) : AriaSnapshotNode :=
  let role := axValue n.role
  { ref := "ax" ++ toString (outLen + 1)
    role := if role = "" then "unknown" else role
    name := axValue n.name
    value := axValue n.value
    description := axValue n.description
    backendDOMNodeId := n.backendDOMNodeId
    depth := depth }

/-- Children pushed for a visited node: those of its declared children present
in the index (and truthy, which the index already guarantees). -/
def axChildren (byId : List (String × RawAXNode)) (n : RawAXNode) : List String :=
  (n.childIds.getD []).filter (fun c => (alGet byId c).isSome && decide (c ≠ ""))

/-- The explicit-stack DFS loop of `formatAriaSnapshot`, with the stack held
top-first (children are pushed in reverse in the source so that they pop in
original order, which is exactly prepending them in order here). -/
def fmtLoop (byId : List (String × RawAXNode)) (limit : Nat) :
    List (String × Nat) → List AriaSnapshotNode → List AriaSnapshotNode
  | [], out => out
  | (id, depth) :: rest, out =>
    if _h : out.length < limit then
      match alGet byId id with
      | none => fmtLoop byId limit rest out
      | some n =>
          fmtLoop byId limit
            ((axChildren byId n).map (fun c => (c, depth + 1)) ++ rest)
            (out ++ [mkFlat n out.length depth])
    else out
termination_by stack out => (limit - out.length, stack.length)
decreasing_by
  · exact Prod.Lex.right _ (Nat.lt_succ_self _)
  · exact Prod.Lex.left _ _ (by simp; omega)

/-- `formatAriaSnapshot`: index, find the root, run the bounded DFS. -/
def formatAriaSnapshot (nodes : List RawAXNode) (limit : Nat) :
    List AriaSnapshotNode :=
  match axRootId nodes with
  | none => []
  | some rootId => fmtLoop (axIndex nodes) limit [(rootId, 0)] []

/-- Accumulator-free form of the DFS loop: `k` is the number of nodes already
emitted (`out.length` in the loop). -/
def dfsNodes (byId : List (String × RawAXNode)) (limit : Nat) :
    List (String × Nat) → Nat → List AriaSnapshotNode
  | [], _ => []
  | (id, depth) :: rest, k =>
    if _h : k < limit then
      match alGet byId id with
      | none => dfsNodes byId limit rest k
      | some n =>
          mkFlat n k depth ::
            dfsNodes byId limit
              ((axChildren byId n).map (fun c => (c, depth + 1)) ++ rest) (k + 1)
    else []
termination_by stack k => (limit - k, stack.length)
decreasing_by
  · exact Prod.Lex.right _ (Nat.lt_succ_self _)
  · exact Prod.Lex.left _ _ (by omega)

theorem fmtLoop_eq_dfs (byId : List (String × RawAXNode)) (limit : Nat) :
    ∀ stack out, fmtLoop byId limit stack out = out ++ dfsNodes byId limit stack out.length := by
  intro stack out
  induction stack, out using fmtLoop.induct byId limit with
  | case1 out => simp [fmtLoop, dfsNodes]
  | case2 id depth rest out h hn ih =>
      rw [fmtLoop, dfsNodes]
      simp only [h, dif_pos, hn]
      exact ih
  | case3 id depth rest out h n hn ih =>
      rw [fmtLoop, dfsNodes]
      simp only [h, dif_pos, hn]
      rw [ih]
      simp
  | case4 id depth rest out h =>
      rw [fmtLoop, dfsNodes]
      simp [h]

theorem dfsNodes_length_le (byId : List (String × RawAXNode)) (limit : Nat) :
    ∀ stack k, (dfsNodes byId limit stack k).length ≤ limit - k := by
  intro stack k
  induction stack, k using dfsNodes.induct byId limit with
  | case1 k => simp [dfsNodes]
  | case2 id depth rest k h hn ih =>
      rw [dfsNodes]
      simp only [h, dif_pos, hn]
      exact ih
  | case3 id depth rest k h n hn ih =>
      rw [dfsNodes]
      simp only [h, dif_pos, hn]
      simp only [List.length_cons]
      omega
  | case4 id depth rest k h =>
      rw [dfsNodes]
      simp [h]

theorem dfsNodes_take (byId : List (String × RawAXNode)) (limit limit' : Nat)
    (hll : limit ≤ limit') :
    ∀ stack k, dfsNodes byId limit stack k = (dfsNodes byId limit' stack k).take (limit - k) := by
  intro stack k
  induction stack, k using dfsNodes.induct byId limit with
  | case1 k => simp [dfsNodes]
  | case2 id depth rest k h hn ih =>
      rw [dfsNodes, dfsNodes]
      simp only [h, dif_pos, Nat.lt_of_lt_of_le h hll, hn]
      exact ih
  | case3 id depth rest k h n hn ih =>
      rw [dfsNodes, dfsNodes]
      simp only [h, dif_pos, Nat.lt_of_lt_of_le h hll, hn]
      have hs : limit - k = (limit - (k + 1)) + 1 := by omega
      rw [hs, List.take_succ_cons, ih]
  | case4 id depth rest k h =>
      rw [dfsNodes]
      have hz : limit - k = 0 := by omega
      simp [h, hz]

/-- Claim C10: `formatAriaSnapshot` is total — the explicit-stack traversal is
accepted as a terminating (well-founded) definition for every raw node list,
cyclic child references, missing ids and multiple unreferenced nodes included —
and its flattened output never exceeds the node-count limit. -/
theorem c10_format_total_bounded (nodes : List RawAXNode) (limit : Nat) :
    (formatAriaSnapshot nodes limit).length ≤ limit := by
  unfold formatAriaSnapshot
  match axRootId nodes with
  | none => simp
  | some rootId =>
      simp only
      rw [fmtLoop_eq_dfs]
      simpa using dfsNodes_length_le (axIndex nodes) limit [(rootId, 0)] 0

/-! ### The pre-order visit, as the spec describes it (refinement side of C4) -/

/-- Modelled from the spec: the pre-order depth-first visit from a node, each
node followed by its children's subtrees in their original declared order.
`fuel` bounds the recursion depth; a visit is complete once more fuel does not
change it. -/
def visitOrder (byId : List (String × RawAXNode)) : Nat → String → Nat → List (String × Nat)
  | 0, _, _ => []
  | fuel + 1, id, depth =>
    match alGet byId id with
    | none => []
    | some n =>
        (id, depth) ::
          ((axChildren byId n).map (fun c => visitOrder byId fuel c (depth + 1))).flatten

/-- Pre-order visit of a whole stack of entries, left to right. -/
def visitStack (byId : List (String × RawAXNode)) (fuel : Nat)
    (stack : List (String × Nat)) : List (String × Nat) :=
  (stack.map (fun p => visitOrder byId fuel p.1 p.2)).flatten

/-- Fallback raw node (never used on ids actually visited). -/
def defaultRawAXNode : RawAXNode :=
  { nodeId := none, role := none, name := none, value := none, description := none,
    childIds := none, backendDOMNodeId := none }

/-- The flattened node a visit entry renders to, at emission index `k`. -/
def flatAt (byId : List (String × RawAXNode)) (k : Nat) (p : String × Nat) :
    AriaSnapshotNode :=
  mkFlat ((alGet byId p.1).getD defaultRawAXNode) k p.2

/-- Render a visit sequence to flattened nodes, numbering emissions from `k`. -/
def renderVisit (byId : List (String × RawAXNode)) : Nat → List (String × Nat) →
    List AriaSnapshotNode
  | _, [] => []
  | k, p :: rest => flatAt byId k p :: renderVisit byId (k + 1) rest

/-- Is the id listed in any node's declared children (its own included)? -/
def listedAsChild (nodes : List RawAXNode) (id : String) : Bool :=
  nodes.any (fun m => (m.childIds.getD []).contains id)

theorem foldl_append_eq {α β : Type} (f : α → List β) :
    ∀ (l : List α) (a : List β),
      l.foldl (fun acc n => acc ++ f n) a = a ++ (l.map f).flatten := by
  intro l
  induction l with
  | nil => intro a; simp
  | cons x rest ih =>
      intro a
      simp only [List.foldl_cons, List.map_cons, List.flatten_cons]
      rw [ih, List.append_assoc]

theorem axReferenced_contains (nodes : List RawAXNode) (id : String) :
    (axReferenced nodes).contains id = listedAsChild nodes id := by
  rw [Bool.eq_iff_iff]
  unfold axReferenced listedAsChild
  rw [foldl_append_eq (fun n => n.childIds.getD []) nodes []]
  simp only [List.nil_append, List.contains, List.elem_eq_mem, decide_eq_true_eq,
    List.any_eq_true, List.mem_flatten, List.mem_map]
  constructor
  · rintro ⟨l, ⟨n, hn, rfl⟩, hid⟩
    exact ⟨n, hn, by simpa using hid⟩
  · rintro ⟨n, hn, h⟩
    exact ⟨n.childIds.getD [], ⟨n, hn, rfl⟩, by simpa using h⟩

theorem find?_congr_pred {α : Type} (p q : α → Bool) :
    ∀ l : List α, (∀ x ∈ l, p x = q x) → l.find? p = l.find? q := by
  intro l
  induction l with
  | nil => intro _; rfl
  | cons x rest ih =>
      intro h
      rw [List.find?_cons, List.find?_cons, h x (List.mem_cons_self x rest)]
      cases q x
      · exact ih (fun y hy => h y (List.mem_cons_of_mem x hy))
      · rfl

theorem visitOrder_none (byId : List (String × RawAXNode)) (id : String)
    (h : alGet byId id = none) :
    ∀ fuel depth, visitOrder byId fuel id depth = [] := by
  intro fuel depth
  cases fuel with
  | zero => rfl
  | succ f => simp [visitOrder, h]

theorem visitOrder_shift (byId : List (String × RawAXNode)) :
    ∀ (fuel : Nat) (id : String) (d : Nat),
      visitOrder byId fuel id d = (visitOrder byId fuel id 0).map (fun p => (p.1, p.2 + d)) := by
  intro fuel
  induction fuel with
  | zero => intro id d; rfl
  | succ f ih =>
      intro id d
      cases hk : alGet byId id with
      | none => simp [visitOrder, hk]
      | some n =>
          simp only [visitOrder, hk, List.map_cons, Nat.zero_add, List.map_flatten,
            List.map_map]
          congr 1
          congr 1
          apply List.map_congr_left
          intro c _
          simp only [Function.comp_apply]
          rw [ih c (d + 1), ih c 1, List.map_map]
          apply List.map_congr_left
          intro p _
          simp only [Function.comp_apply]
          have hpd : p.2 + 1 + d = p.2 + (d + 1) := by omega
          rw [hpd]

theorem alGet_some_mem_key {α β : Type} [DecidableEq α] {l : List (α × β)} {k : α}
    {v : β} (h : alGet l k = some v) : ∃ p ∈ l, p.1 = k := by
  unfold alGet at h
  cases hf : l.find? (fun p => decide (p.1 = k)) with
  | none => rw [hf] at h; simp at h
  | some q =>
      have hq := List.mem_of_find?_eq_some hf
      have hqk := List.find?_some hf
      simp only [decide_eq_true_eq] at hqk
      exact ⟨q, hq, hqk⟩

theorem visitOrder_stable_global (byId : List (String × RawAXNode)) (fuel : Nat)
    (h : ∀ p ∈ byId, visitOrder byId fuel p.1 0 = visitOrder byId (fuel + 1) p.1 0) :
    ∀ id d, visitOrder byId fuel id d = visitOrder byId (fuel + 1) id d := by
  intro id d
  rw [visitOrder_shift byId fuel id d, visitOrder_shift byId (fuel + 1) id d]
  cases hk : alGet byId id with
  | none => rw [visitOrder_none byId id hk, visitOrder_none byId id hk]
  | some n =>
      obtain ⟨p, hp, hpk⟩ := alGet_some_mem_key hk
      rw [← hpk, h p hp]

theorem visitStack_cons_of_some (byId : List (String × RawAXNode)) (fuel : Nat)
    (id : String) (d : Nat) (rest : List (String × Nat)) (n : RawAXNode)
    (hk : alGet byId id = some n)
    (hst : ∀ i dd, visitOrder byId fuel i dd = visitOrder byId (fuel + 1) i dd) :
    visitStack byId fuel ((id, d) :: rest) =
      (id, d) :: visitStack byId fuel ((axChildren byId n).map (fun c => (c, d + 1)) ++ rest) := by
  unfold visitStack
  simp only [List.map_cons, List.flatten_cons, List.map_append, List.flatten_append,
    List.map_map]
  rw [hst id d]
  simp only [visitOrder, hk]
  rw [List.cons_append]
  congr 2

theorem dfs_eq_visit (byId : List (String × RawAXNode)) (limit fuel : Nat)
    (hst : ∀ i dd, visitOrder byId fuel i dd = visitOrder byId (fuel + 1) i dd) :
    ∀ stack k, k + (visitStack byId fuel stack).length ≤ limit →
      dfsNodes byId limit stack k = renderVisit byId k (visitStack byId fuel stack) := by
  intro stack k
  induction stack, k using dfsNodes.induct byId limit with
  | case1 k =>
      intro _
      simp [dfsNodes, visitStack, renderVisit]
  | case2 id depth rest k h hn ih =>
      intro hfit
      have hvo : visitOrder byId fuel id depth = [] := visitOrder_none byId id hn fuel depth
      have hvs : visitStack byId fuel ((id, depth) :: rest) = visitStack byId fuel rest := by
        unfold visitStack
        simp [hvo]
      rw [dfsNodes]
      simp only [h, dif_pos, hn]
      rw [hvs] at hfit ⊢
      exact ih hfit
  | case3 id depth rest k h n hn ih =>
      intro hfit
      have hvs := visitStack_cons_of_some byId fuel id depth rest n hn hst
      rw [hvs] at hfit ⊢
      rw [dfsNodes]
      simp only [h, dif_pos, hn]
      rw [renderVisit]
      have hfa : flatAt byId k (id, depth) = mkFlat n k depth := by
        unfold flatAt
        rw [hn]
        rfl
      rw [hfa]
      congr 1
      apply ih
      simp only [List.length_cons] at hfit
      omega
  | case4 id depth rest k h =>
      intro hfit
      have hlen : (visitStack byId fuel ((id, depth) :: rest)).length = 0 := by omega
      have hnil := List.length_eq_zero.mp hlen
      rw [dfsNodes]
      simp only [h, dif_neg, not_false_iff]
      rw [hnil]
      rfl

/-- Claim C4 counterexample input: node `A` lists itself and `B` as children,
so no node is unreferenced; the code falls back to `nodes[0] = B` even though
`A` is the unique node whose id is never listed among any *other* node's
children. -/
def c4CexB : RawAXNode :=
  { nodeId := some "B", role := some (.str "button"), name := some (.str "bee"),
    value := none, description := none, childIds := none, backendDOMNodeId := some 1 }

def c4CexA : RawAXNode :=
  { nodeId := some "A", role := some (.str "link"), name := some (.str "ay"),
    value := none, description := none, childIds := some ["A", "B"],
    backendDOMNodeId := some 2 }

def c4Cex : List RawAXNode := [c4CexB, c4CexA]

/-- Claim C4 counterexample: in `c4Cex` the unique node whose id is never
listed among any *other* node's children is `A` (with role `"link"`), yet the
flattened output is the visit from the fallback first node `B` (role
`"button"`) — a pre-order visit from `A` would have begun with `A` — so the
claim's root characterization fails when a node references itself. -/
theorem c4_counterexample :
    (c4Cex.filter (fun n =>
      match n.nodeId with
      | some id => decide (id ≠ "") &&
          !(c4Cex.any (fun m => decide (m ≠ n) && (m.childIds.getD []).contains id))
      | none => false)) = [c4CexA] ∧
    formatAriaSnapshot c4Cex 10 = [mkFlat c4CexB 0 0] ∧
    (mkFlat c4CexB 0 0).role = "button" ∧ axValue c4CexA.role = "link" := by
  refine ⟨by decide, ?_, by decide, by decide⟩
  have hroot : axRootId c4Cex = some "B" := by decide
  unfold formatAriaSnapshot
  rw [hroot]
  show fmtLoop (axIndex c4Cex) 10 [("B", 0)] [] = [mkFlat c4CexB 0 0]
  have hb : alGet (axIndex c4Cex) "B" = some c4CexB := by decide
  rw [fmtLoop.eq_def]
  simp only [List.length_nil, Nat.reduceLT, dif_pos, hb]
  have hch : axChildren (axIndex c4Cex) c4CexB = [] := by decide
  rw [hch]
  simp only [List.map_nil, List.nil_append]
  rw [fmtLoop.eq_def]

/-- Claim C4 (amended): the traversal root is the first node carrying a
non-empty id that is never listed among any node's declared children (its own
included), falling back to the first node of the raw list; whenever the
pre-order depth-first visit from that root (children in original declared
order) is complete at some fuel and fits within the limit, the flattened
output is exactly that visit rendered in order; and for any larger limit the
output at the smaller limit is its length-`limit` prefix — the traversal stops
once the output reaches the node-count limit. -/
theorem c4_root_preorder_amended (nodes : List RawAXNode) :
    (axRoot nodes = (nodes.find? (fun n =>
        match n.nodeId with
        | some id => decide (id ≠ "") && !(listedAsChild nodes id)
        | none => false)).orElse (fun _ => nodes.head?)) ∧
    (∀ fuel limit rootId, axRootId nodes = some rootId →
      (∀ p ∈ axIndex nodes,
        visitOrder (axIndex nodes) fuel p.1 0 = visitOrder (axIndex nodes) (fuel + 1) p.1 0) →
      (visitOrder (axIndex nodes) fuel rootId 0).length ≤ limit →
      formatAriaSnapshot nodes limit =
        renderVisit (axIndex nodes) 0 (visitOrder (axIndex nodes) fuel rootId 0)) ∧
    (∀ limit limit', limit ≤ limit' →
      formatAriaSnapshot nodes limit = (formatAriaSnapshot nodes limit').take limit) := by
  refine ⟨?_, ?_, ?_⟩
  · unfold axRoot
    have hfind := find?_congr_pred (axRootCandidate (axReferenced nodes))
      (fun n =>
        match n.nodeId with
        | some id => decide (id ≠ "") && !(listedAsChild nodes id)
        | none => false)
      nodes
      (fun n _ => by
        unfold axRootCandidate
        show (match n.nodeId with
            | some id => decide (id ≠ "") && !(axReferenced nodes).contains id
            | none => false) =
          (match n.nodeId with
            | some id => decide (id ≠ "") && !(listedAsChild nodes id)
            | none => false)
        cases n.nodeId with
        | none => rfl
        | some id =>
            show (decide (id ≠ "") && !(axReferenced nodes).contains id) =
              (decide (id ≠ "") && !(listedAsChild nodes id))
            rw [axReferenced_contains])
    rw [hfind]
  · intro fuel limit rootId hroot hstab hfit
    have hglob := visitOrder_stable_global (axIndex nodes) fuel hstab
    unfold formatAriaSnapshot
    rw [hroot]
    show fmtLoop (axIndex nodes) limit [(rootId, 0)] [] = _
    rw [fmtLoop_eq_dfs]
    have hsingle : visitStack (axIndex nodes) fuel [(rootId, 0)] =
        visitOrder (axIndex nodes) fuel rootId 0 := by
      unfold visitStack
      simp
    rw [List.nil_append, List.length_nil]
    rw [dfs_eq_visit (axIndex nodes) limit fuel hglob [(rootId, 0)] 0 (by rw [hsingle]; omega)]
    rw [hsingle]
  · intro limit limit' hll
    unfold formatAriaSnapshot
    cases hroot : axRootId nodes with
    | none => simp
    | some rootId =>
        simp only
        rw [fmtLoop_eq_dfs, fmtLoop_eq_dfs]
        simp only [List.nil_append, List.length_nil]
        simpa using dfsNodes_take (axIndex nodes) limit limit' hll [(rootId, 0)] 0

/-! ### Snapshot rendering with the `[@eN]` reference system (`buildSnapshot`) -/

/-- ASCII lowercasing, as `toLowerCase` acts on the ASCII role strings of the
AX tree (defined over the character data so that it evaluates by `decide`). -/
def jsToLower (s : String) : String := ⟨s.data.map Char.toLower⟩

def INTERACTIVE_ROLES : List String :=
  ["button", "link", "textbox", "checkbox", "radio", "combobox", "listbox",
   "menuitem", "menuitemcheckbox", "menuitemradio", "option", "searchbox",
   "slider", "spinbutton", "switch", "tab", "treeitem"]

def CONTENT_ROLES : List String :=
  ["heading", "cell", "gridcell", "columnheader", "rowheader", "listitem",
   "article", "region", "main", "navigation"]

def STRUCTURAL_ROLES : List String :=
  ["generic", "group", "list", "table", "row", "rowgroup", "grid", "treegrid",
   "menu", "menubar", "toolbar", "tablist", "tree", "directory", "document",
   "application", "presentation", "none"]

/-- The renderer's skip conditions, in source order: unnamed structural node,
unnamed unknown role, `none`/`presentation`, static text (the source also
tests the literal `"InlineTextBox"` against the already lowercased role, which
can never match; kept faithfully). -/
def snapSkip (role name : String) : Bool :=
  (STRUCTURAL_ROLES.contains role && decide (name = "")) ||
  (role == "unknown" && decide (name = "")) ||
  role == "none" || role == "presentation" ||
  role == "statictext" || role == "InlineTextBox"

/-- One rendered line before any reference suffix:
two spaces of indent per depth level, `- <role>`, optional ` "<name>"`,
optional `: "<value>"`. -/
def snapLine (role name value : String) (depth : Nat) : String :=
  let indent := String.join (List.replicate depth "  ")
  let base := indent ++ "- " ++ role
  let base := if name ≠ "" then base ++ " \"" ++ name ++ "\"" else base
  if value ≠ "" then base ++ ": \"" ++ value ++ "\"" else base

/-- `shouldHaveRef`: interactive role, or content role with a non-empty name. -/
def refEligibleRole (role name : String) : Bool :=
  INTERACTIVE_ROLES.contains role ||
    (CONTENT_ROLES.contains role && decide (name ≠ ""))

/-- The rendering loop of `buildSnapshot`: walks the flattened nodes carrying
the running `refCounter`, producing the rendered lines and the reference map
entries in emission order. -/
def buildSnapshotLoop : List AriaSnapshotNode → Nat → List String × List (String × Nat)
  | [], _ => ([], [])
  | node :: rest, refCounter =>
    let role := (jsToLower node.role)
    if snapSkip role node.name then buildSnapshotLoop rest refCounter
    else
      let base := snapLine role node.name node.value node.depth
      match (if refEligibleRole role node.name then node.backendDOMNodeId else none) with
      | some handle =>
          let tok := "e" ++ toString (refCounter + 1)
          let res := buildSnapshotLoop rest (refCounter + 1)
          ((base ++ " [@" ++ tok ++ "]") :: res.1, (tok, handle) :: res.2)
      | none =>
          let res := buildSnapshotLoop rest refCounter
          (base :: res.1, res.2)

/-- Result of `buildSnapshot`: the rendered text and the reference map. -/
structure SnapResult where
  text : String
  refs : List (String × Nat)
deriving DecidableEq

/-- `buildSnapshot`: run the loop from counter 0 and join the lines (an empty
join renders `"(empty page)"`). -/
def buildSnapshot (nodes : List AriaSnapshotNode) : SnapResult :=
  let lr := buildSnapshotLoop nodes 0
  { text :=
      let j := String.intercalate "\n" lr.1
      if j = "" then "(empty page)" else j
    refs := lr.2 }

/-- The handle a node's reference token is backed by, when it gets one: the
node must be emitted (not skipped), carry a DOM handle, and have an
interactive role or a content role with a non-empty name. -/
def nodeRefHandle (node : AriaSnapshotNode) : Option Nat :=
  if snapSkip (jsToLower node.role) node.name then none
  else if refEligibleRole (jsToLower node.role) node.name then node.backendDOMNodeId
  else none

/-- Declarative rendering: each emitted node's line, with ` [@e<N>]` appended
exactly when the node gets a token, `N` counting token-receiving emissions. -/
def specSnapLines : List AriaSnapshotNode → Nat → List String
  | [], _ => []
  | node :: rest, cnt =>
    if snapSkip (jsToLower node.role) node.name then specSnapLines rest cnt
    else
      (match nodeRefHandle node with
        | some _ =>
            snapLine (jsToLower node.role) node.name node.value node.depth ++
              " [@" ++ ("e" ++ toString (cnt + 1)) ++ "]"
        | none => snapLine (jsToLower node.role) node.name node.value node.depth) ::
        specSnapLines rest (cnt + (nodeRefHandle node).toList.length)

theorem buildSnapshotLoop_spec :
    ∀ (nodes : List AriaSnapshotNode) (cnt : Nat),
      buildSnapshotLoop nodes cnt =
        (specSnapLines nodes cnt,
          ((nodes.filterMap nodeRefHandle).enumFrom cnt).map
            (fun p => ("e" ++ toString (p.1 + 1), p.2))) := by
  intro nodes
  induction nodes with
  | nil => intro cnt; simp [buildSnapshotLoop, specSnapLines]
  | cons node rest ih =>
      intro cnt
      by_cases hskip : snapSkip (jsToLower node.role) node.name
      · have hnrh : nodeRefHandle node = none := by
          unfold nodeRefHandle
          rw [if_pos hskip]
        rw [buildSnapshotLoop, specSnapLines]
        simp only [hskip, if_true, List.filterMap_cons, hnrh]
        exact ih cnt
      · rw [buildSnapshotLoop, specSnapLines]
        simp only [hskip, if_false, Bool.false_eq_true]
        have hnrh : nodeRefHandle node =
            (if refEligibleRole (jsToLower node.role) node.name
              then node.backendDOMNodeId else none) := by
          unfold nodeRefHandle
          rw [if_neg hskip]
        cases hh : (if refEligibleRole (jsToLower node.role) node.name
            then node.backendDOMNodeId else none) with
        | some handle =>
            simp only [hh, List.filterMap_cons, hnrh, List.enumFrom_cons, List.map_cons]
            rw [ih (cnt + 1)]
            have hl : (some handle).toList.length = 1 := rfl
            rw [hl]
        | none =>
            simp only [hh, List.filterMap_cons, hnrh, List.map_cons]
            rw [ih cnt]
            have hl : (none : Option Nat).toList.length = 0 := rfl
            rw [hl]
            rfl

/-- Claim C3: in the rendered snapshot the reference map is exactly the
emission-ordered enumeration of the token-eligible emitted nodes — tokens
`e1, e2, …` allocated consecutively and recorded with the node's DOM handle —
and the rendered lines carry ` [@e<N>]` exactly on those nodes; a node is
token-eligible iff it is emitted, carries a DOM handle, and has an interactive
role or a content role with non-empty name; structural-role nodes are never
token-eligible, and a structural node with an empty name is skipped
entirely. -/
theorem c3_ref_tokens (nodes : List AriaSnapshotNode) :
    ((buildSnapshot nodes).refs =
      ((nodes.filterMap nodeRefHandle).enumFrom 0).map
        (fun p => ("e" ++ toString (p.1 + 1), p.2))) ∧
    ((buildSnapshotLoop nodes 0).1 = specSnapLines nodes 0) ∧
    (∀ node : AriaSnapshotNode, ∀ h : Nat, nodeRefHandle node = some h →
      node.backendDOMNodeId = some h ∧
      snapSkip (jsToLower node.role) node.name = false ∧
      (INTERACTIVE_ROLES.contains (jsToLower node.role) = true ∨
        (CONTENT_ROLES.contains (jsToLower node.role) = true ∧ node.name ≠ ""))) ∧
    (∀ node : AriaSnapshotNode, ∀ h : Nat, node.backendDOMNodeId = some h →
      snapSkip (jsToLower node.role) node.name = false →
      (INTERACTIVE_ROLES.contains (jsToLower node.role) = true ∨
        (CONTENT_ROLES.contains (jsToLower node.role) = true ∧ node.name ≠ "")) →
      nodeRefHandle node = some h) ∧
    (∀ node : AriaSnapshotNode, STRUCTURAL_ROLES.contains (jsToLower node.role) = true →
      nodeRefHandle node = none) ∧
    (∀ node : AriaSnapshotNode, STRUCTURAL_ROLES.contains (jsToLower node.role) = true →
      node.name = "" → snapSkip (jsToLower node.role) node.name = true) := by
  have hdisj : ∀ r ∈ STRUCTURAL_ROLES,
      INTERACTIVE_ROLES.contains r = false ∧ CONTENT_ROLES.contains r = false := by
    decide
  refine ⟨?_, ?_, ?_, ?_, ?_, ?_⟩
  · show (buildSnapshotLoop nodes 0).2 = _
    rw [buildSnapshotLoop_spec nodes 0]
  · rw [buildSnapshotLoop_spec nodes 0]
  · intro node h hsome
    unfold nodeRefHandle at hsome
    by_cases hskip : snapSkip (jsToLower node.role) node.name
    · rw [if_pos hskip] at hsome
      exact absurd hsome (by simp)
    · rw [if_neg hskip] at hsome
      by_cases helig : refEligibleRole (jsToLower node.role) node.name
      · rw [if_pos helig] at hsome
        refine ⟨hsome, by simp [hskip], ?_⟩
        unfold refEligibleRole at helig
        rcases Bool.or_eq_true_iff.mp helig with hi | hc
        · exact Or.inl hi
        · rcases Bool.and_eq_true_iff.mp hc with ⟨hc1, hc2⟩
          exact Or.inr ⟨hc1, by simpa using hc2⟩
      · rw [if_neg helig] at hsome
        exact absurd hsome (by simp)
  · intro node h hdom hskip helig
    unfold nodeRefHandle
    have he : refEligibleRole (jsToLower node.role) node.name = true := by
      unfold refEligibleRole
      rw [Bool.or_eq_true]
      rcases helig with hi | ⟨hc1, hc2⟩
      · exact Or.inl hi
      · refine Or.inr ?_
        rw [Bool.and_eq_true]
        exact ⟨hc1, decide_eq_true hc2⟩
    rw [if_neg (by simp [hskip]), if_pos he]
    exact hdom
  · intro node hst
    have hmem : (jsToLower node.role) ∈ STRUCTURAL_ROLES := by
      simpa using hst
    have hd := hdisj (jsToLower node.role) hmem
    have hne : refEligibleRole (jsToLower node.role) node.name = false := by
      unfold refEligibleRole
      rw [hd.1, hd.2]
      rfl
    unfold nodeRefHandle
    rw [hne]
    simp
  · intro node hst hname
    unfold snapSkip
    rw [hname, hst]
    rfl

/-- Flattened nodes exercising every C3 case: an interactive node with handle,
an unnamed structural node, a named content node with handle, and a named
structural node (emitted, no token). -/
def c3Ex : List AriaSnapshotNode :=
  [{ ref := "ax1", role := "button", name := "Submit", value := "",
     description := "", backendDOMNodeId := some 42, depth := 0 },
   { ref := "ax2", role := "generic", name := "", value := "",
     description := "", backendDOMNodeId := some 5, depth := 1 },
   { ref := "ax3", role := "heading", name := "Title", value := "",
     description := "", backendDOMNodeId := some 7, depth := 1 },
   { ref := "ax4", role := "group", name := "Box", value := "",
     description := "", backendDOMNodeId := some 9, depth := 1 }]

theorem c3_ref_tokens_witness :
    (buildSnapshot c3Ex).refs = [("e1", 42), ("e2", 7)] ∧
    (buildSnapshotLoop c3Ex 0).1 =
      ["- button \"Submit\" [@e1]", "  - heading \"Title\" [@e2]", "  - group \"Box\""] ∧
    nodeRefHandle (c3Ex.get ⟨3, by decide⟩) = none := by
  have h := c3_ref_tokens c3Ex
  refine ⟨h.1.trans (by decide), (h.2.1).trans (by decide), ?_⟩
  exact h.2.2.2.2.1 (c3Ex.get ⟨3, by decide⟩) (by decide)

/-- The spec's test tree for C4: `A` lists `B` and `C` as children and no node
lists `A`. -/
def c4ExA : RawAXNode :=
  { nodeId := some "A", role := some (.str "main"), name := none, value := none,
    description := none, childIds := some ["B", "C"], backendDOMNodeId := some 10 }

def c4ExB : RawAXNode :=
  { nodeId := some "B", role := some (.str "button"), name := some (.str "Submit"),
    value := none, description := none, childIds := none, backendDOMNodeId := some 11 }

def c4ExC : RawAXNode :=
  { nodeId := some "C", role := some (.str "link"), name := some (.str "More"),
    value := none, description := none, childIds := none, backendDOMNodeId := some 12 }

def c4Ex : List RawAXNode := [c4ExA, c4ExB, c4ExC]

theorem c4_root_preorder_amended_witness :
    formatAriaSnapshot c4Ex 10 =
      renderVisit (axIndex c4Ex) 0 (visitOrder (axIndex c4Ex) 2 "A" 0) ∧
    visitOrder (axIndex c4Ex) 2 "A" 0 = [("A", 0), ("B", 1), ("C", 1)] ∧
    formatAriaSnapshot c4Ex 2 = (formatAriaSnapshot c4Ex 10).take 2 ∧
    axRoot c4Ex = some c4ExA := by
  refine ⟨(c4_root_preorder_amended c4Ex).2.1 2 10 "A" (by decide) (by decide) (by decide),
    by decide,
    (c4_root_preorder_amended c4Ex).2.2 2 10 (by omega),
    ?_⟩
  rw [(c4_root_preorder_amended c4Ex).1]
  decide

/-! ## Reference parsing and resolution (`parseRef` in accessibility.ts,
`resolveRef` in actions.ts) -/

/-- The whitespace class `trim` strips (ASCII core of the JS definition). -/
def isJsWs (c : Char) : Bool :=
  c == ' ' || c == '\t' || c == '\n' || c == '\r' || c == '\x0b' || c == '\x0c'

/-- `raw.trim()`: strip leading and trailing whitespace (defined over the
character data so that it evaluates by `decide`). -/
def jsTrim (s : String) : String :=
  ⟨((s.data.dropWhile isJsWs).reverse.dropWhile isJsWs).reverse⟩

/-- Does the string match `/^e\d+$/`? -/
def isERef (s : String) : Bool :=
  match s.data with
  | 'e' :: rest => decide (rest ≠ []) && rest.all Char.isDigit
  | _ => false

/-- `parseRef`: trim, reject the empty string, strip one leading `@`, accept
exactly `e<digits>`. -/
def parseRef (raw : String) : Option String :=
  let trimmed := jsTrim raw
  if trimmed = "" then none
  else
    let normalized :=
      match trimmed.data with
      | '@' :: rest => (⟨rest⟩ : String)
      | _ => trimmed
    if isERef normalized then some normalized else none

/-- `resolveRef`: malformed references fail with the invalid-reference error,
well-formed references missing from the current map fail with the
distinguishable not-found error. -/
def resolveRef (ref : String) (refs : List (String × Nat)) : Except String Nat :=
  match parseRef ref with
  | none => .error ("Invalid ref: \"" ++ ref ++ "\"")
  | some parsed =>
      match alGet refs parsed with
      | none => .error ("Ref \"" ++ ref ++ "\" not found — run snapshot() first")
      | some nodeId => .ok nodeId

/-- Claim C7 counterexample: `" e1"` does not match `e<digits>` even after
stripping an optional leading `@` (it has no leading `@` and starts with a
space), so by the claim it should fail as an invalid reference — but the
source trims whitespace first and resolves it successfully. -/
theorem c7_counterexample :
    parseRef " e1" = some "e1" ∧
    resolveRef " e1" [("e1", 42)] = .ok 42 ∧
    isERef " e1" = false ∧
    " e1".data.head? ≠ some '@' := by
  decide

/-- Claim C7 (amended): after trimming surrounding whitespace and optionally
stripping one leading `@`, a reference that fails to match `e<digits>` yields
the invalid-reference error; a well-formed token absent from the current map
yields the distinguishable stale/unknown "not found" error — the outcome
depends only on the current map, so a token valid against an earlier map
still fails; a token present in the current map resolves to its handle; and
the two error messages always differ. -/
theorem c7_ref_errors_amended (raw : String) (refs : List (String × Nat)) :
    (parseRef raw = none →
      resolveRef raw refs = .error ("Invalid ref: \"" ++ raw ++ "\"")) ∧
    (∀ tok, parseRef raw = some tok → alGet refs tok = none →
      resolveRef raw refs =
        .error ("Ref \"" ++ raw ++ "\" not found — run snapshot() first")) ∧
    (∀ tok v, parseRef raw = some tok → alGet refs tok = some v →
      resolveRef raw refs = .ok v) ∧
    (∀ tok, parseRef raw = some tok → isERef tok = true) ∧
    ("Invalid ref: \"" ++ raw ++ "\"" : String) ≠
      ("Ref \"" ++ raw ++ "\" not found — run snapshot() first") := by
  refine ⟨?_, ?_, ?_, ?_, ?_⟩
  · intro h
    unfold resolveRef
    rw [h]
  · intro tok hp ha
    unfold resolveRef
    rw [hp]
    simp only [ha]
  · intro tok v hp ha
    unfold resolveRef
    rw [hp]
    simp only [ha]
  · intro tok hp
    unfold parseRef at hp
    by_cases he : jsTrim raw = ""
    · rw [if_pos he] at hp
      exact absurd hp (by simp)
    · rw [if_neg he] at hp
      simp only at hp
      cases hm : isERef (match (jsTrim raw).data with
          | '@' :: rest => (⟨rest⟩ : String)
          | _ => jsTrim raw) with
      | true =>
          rw [hm, if_pos rfl] at hp
          cases hp
          exact hm
      | false =>
          rw [hm] at hp
          simp at hp
  · intro h
    have hd1 : ("Invalid ref: \"" ++ raw ++ "\"").data.head? = some 'I' := rfl
    have hd2 : ("Ref \"" ++ raw ++ "\" not found — run snapshot() first").data.head? =
      some 'R' := rfl
    rw [h, hd2] at hd1
    exact absurd hd1 (by decide)

theorem c7_ref_errors_amended_witness :
    resolveRef "@e7" [("e7", 3)] = .ok 3 ∧
    resolveRef "e9" [("e7", 3)] =
      .error ("Ref \"e9\" not found — run snapshot() first") ∧
    resolveRef "x1" [("e7", 3)] = .error ("Invalid ref: \"x1\"") := by
  refine ⟨?_, ?_, ?_⟩
  · exact (c7_ref_errors_amended "@e7" [("e7", 3)]).2.2.1 "e7" 3 (by decide) (by decide)
  · exact (c7_ref_errors_amended "e9" [("e7", 3)]).2.1 "e9" (by decide) (by decide)
  · exact (c7_ref_errors_amended "x1" [("e7", 3)]).1 (by decide)

/-! ## Tab manager (`createTabManager` in tab-manager.ts) -/

/-- A tracked tab record `{tabId, sessionId, url, title}`. -/
structure TabInfo where
  tabId : String
  sessionId : String
  url : String
  title : String
deriving DecidableEq

/-- `TabManager.closeTab`: await the close-target command, then delete the
local record; the command's result value is never inspected, but a rejected
command propagates its error before the delete runs. -/
def tmCloseTab (tabs : List (String × TabInfo)) (tabId : String)
    (cmd : Except String Bool) : Except String (List (String × TabInfo)) :=
  match cmd with
  | .error e => .error e
  | .ok _ => .ok (alDelete tabs tabId)

def c8Tabs : List (String × TabInfo) :=
  [("t1", { tabId := "t1", sessionId := "s1", url := "u", title := "T" })]

/-- Claim C8 counterexample: when the close-target command rejects, `closeTab`
propagates the error and never reaches the delete — the tracked record is not
removed, refuting removal "even when the close-target command fails". -/
theorem c8_counterexample :
    tmCloseTab c8Tabs "t1" (.error "Target.closeTarget failed") =
      .error "Target.closeTarget failed" ∧
    alGet c8Tabs "t1" ≠ none := by
  decide

/-- Claim C8 (amended): `closeTab` removes the tab's record whenever the
close-target command resolves, regardless of the result value the command
carries (only that record is removed); when the command rejects, the error
propagates and the table is not modified. -/
theorem c8_close_tab_amended (tabs : List (String × TabInfo)) (tabId : String) :
    (∀ b, tmCloseTab tabs tabId (.ok b) = .ok (alDelete tabs tabId)) ∧
    alGet (alDelete tabs tabId) tabId = none ∧
    (∀ k, k ≠ tabId → alGet (alDelete tabs tabId) k = alGet tabs k) ∧
    (∀ e, tmCloseTab tabs tabId (.error e) = .error e) := by
  refine ⟨fun b => rfl, alGet_delete_self tabs tabId, ?_, fun e => rfl⟩
  intro k hk
  exact alGet_delete_other tabs tabId k hk

theorem c8_close_tab_amended_witness :
    tmCloseTab c8Tabs "t1" (.ok false) = .ok [] ∧
    alGet (alDelete c8Tabs "t1") "t1" = none ∧
    alGet (alDelete c8Tabs "t1") "t2" = alGet c8Tabs "t2" := by
  have h := c8_close_tab_amended c8Tabs "t1"
  refine ⟨(h.1 false).trans (by decide), h.2.1, h.2.2.1 "t2" (by decide)⟩

/-! ## ChromeAgent state (index.ts): current tab, session and reference map -/

/-- The agent-owned mutable state: current (tab, session) selection, the
current reference map, and the tab manager's table. -/
structure AgentState where
  currentTabId : Option String
  currentSessionId : Option String
  refs : List (String × Nat)
  tabs : List (String × TabInfo)
deriving DecidableEq

/-- `ChromeAgent.navigate`: run the underlying navigation (its outcome
abstracted by `ok`), then clear the reference map; a failure propagates before
the clear. -/
def agentNavigate (s : AgentState) (ok : Bool) : Except String AgentState :=
  if ok then .ok { s with refs := [] } else .error "Navigation failed"

/-- `ChromeAgent.back`: `goBack` (outcome abstracted), then clear the map. -/
def agentBack (s : AgentState) (ok : Bool) : Except String AgentState :=
  if ok then .ok { s with refs := [] } else .error "goBack failed"

/-- `ChromeAgent.forward`: `goForward`, then clear the map. -/
def agentForward (s : AgentState) (ok : Bool) : Except String AgentState :=
  if ok then .ok { s with refs := [] } else .error "goForward failed"

/-- `ChromeAgent.reload`: reload, then clear the map. -/
def agentReload (s : AgentState) (ok : Bool) : Except String AgentState :=
  if ok then .ok { s with refs := [] } else .error "reload failed"

/-- `ChromeAgent.switchTab`: unknown tabs fail; otherwise the current
selection moves and the reference map is cleared. -/
def agentSwitchTab (s : AgentState) (tabId : String) : Except String AgentState :=
  match alGet s.tabs tabId with
  | none => .error ("Tab \"" ++ tabId ++ "\" not found")
  | some tab =>
      .ok { s with currentTabId := some tabId,
                   currentSessionId := some tab.sessionId, refs := [] }

/-- `ChromeAgent.closeTab`: pick the target (argument or current tab), run the
tab manager's close (which deletes the record only when the command resolves),
and reset the selection and reference map when the closed tab was current. -/
def agentCloseTab (s : AgentState) (tabId : Option String) (closeOk : Bool) :
    Except String AgentState :=
  match tabId.orElse (fun _ => s.currentTabId) with
  | none => .error "No tab to close"
  | some target =>
      if closeOk then
        let s1 : AgentState := { s with tabs := alDelete s.tabs target }
        if s.currentTabId = some target then
          .ok { s1 with currentTabId := none, currentSessionId := none, refs := [] }
        else .ok s1
      else .error "close failed"

/-- Claim C5: on success, each navigation-class operation on the current tab —
navigate, back, forward, reload, switching tabs, and closing the current tab
(by default target or by its explicit id) — leaves the current reference map
empty, so no token valid before it survives. -/
theorem c5_nav_clears_refs (s : AgentState) :
    agentNavigate s true = .ok { s with refs := [] } ∧
    agentBack s true = .ok { s with refs := [] } ∧
    agentForward s true = .ok { s with refs := [] } ∧
    agentReload s true = .ok { s with refs := [] } ∧
    (∀ tabId tab, alGet s.tabs tabId = some tab →
      agentSwitchTab s tabId =
        .ok { s with currentTabId := some tabId,
                     currentSessionId := some tab.sessionId, refs := [] }) ∧
    (∀ target, s.currentTabId = some target →
      ∀ arg, (arg = none ∨ arg = some target) →
        agentCloseTab s arg true =
          .ok { s with tabs := alDelete s.tabs target, currentTabId := none,
                       currentSessionId := none, refs := [] }) := by
  refine ⟨rfl, rfl, rfl, rfl, ?_, ?_⟩
  · intro tabId tab h
    unfold agentSwitchTab
    rw [h]
  · intro target hcur arg harg
    unfold agentCloseTab
    have htgt : arg.orElse (fun _ => s.currentTabId) = some target := by
      rcases harg with h | h
      · rw [h]
        exact hcur
      · rw [h]
        rfl
    rw [htgt]
    simp only [if_pos rfl, hcur, if_pos]

def c5Ex : AgentState :=
  { currentTabId := some "t1", currentSessionId := some "s1",
    refs := [("e1", 42)], tabs := c8Tabs }

theorem c5_nav_clears_refs_witness :
    agentNavigate c5Ex true = .ok { c5Ex with refs := [] } ∧
    agentSwitchTab c5Ex "t1" =
      .ok { c5Ex with currentTabId := some "t1", currentSessionId := some "s1",
                      refs := [] } ∧
    agentCloseTab c5Ex none true =
      .ok { c5Ex with tabs := [], currentTabId := none, currentSessionId := none,
                      refs := [] } := by
  have h := c5_nav_clears_refs c5Ex
  refine ⟨h.1, ?_, ?_⟩
  · have hs := h.2.2.2.2.1 "t1"
      { tabId := "t1", sessionId := "s1", url := "u", title := "T" } (by decide)
    exact hs
  · have hc := h.2.2.2.2.2 "t1" rfl none (Or.inl rfl)
    exact hc.trans (by decide)

/-! ## Navigation history (`goBack` / `goForward` in navigation.ts) -/

/-- A navigation history entry (only its id matters here). -/
structure HistEntry where
  id : Int
deriving DecidableEq

/-- The `Page.getNavigationHistory` result shape, fields possibly absent. -/
structure NavHistory where
  currentIndex : Option Int
  entries : Option (List HistEntry)
deriving DecidableEq

/-- JS array indexing: out-of-range (negative included) yields `undefined`. -/
def jsIndex {α : Type} (l : List α) (i : Int) : Option α :=
  if i < 0 then none else l.get? i.toNat

/-- `goBack`: issue `Page.navigateToHistoryEntry` on `entries[idx-1].id` only
when `idx > 0` and that entry exists; otherwise no command is issued (the call
returns normally). -/
def goBackCmd (h : NavHistory) : Option Int :=
  let idx := h.currentIndex.getD 0
  let entries := h.entries.getD []
  if idx > 0 then
    match jsIndex entries (idx - 1) with
    | some e => some e.id
    | none => none
  else none

/-- `goForward`: issue the command on `entries[idx+1].id` only when
`idx < entries.length - 1` and that entry exists; otherwise a no-op. -/
def goForwardCmd (h : NavHistory) : Option Int :=
  let idx := h.currentIndex.getD 0
  let entries := h.entries.getD []
  if idx < (entries.length : Int) - 1 then
    match jsIndex entries (idx + 1) with
    | some e => some e.id
    | none => none
  else none

theorem jsIndex_neg {α : Type} (l : List α) (i : Int) (h : i < 0) :
    jsIndex l i = none := by
  unfold jsIndex
  rw [if_pos h]

/-- Claim C9: `goBack` (resp. `goForward`) issues a navigate-to-history-entry
command exactly when an entry exists at `currentIndex - 1` (resp.
`currentIndex + 1`), navigating to that entry's id; in every other case it
returns `none` — a successful no-op, there being no error outcome. -/
theorem c9_back_forward_neighbors (h : NavHistory) :
    (∀ e, goBackCmd h = some e ↔
      ∃ entry, jsIndex (h.entries.getD []) (h.currentIndex.getD 0 - 1) = some entry ∧
        entry.id = e) ∧
    (∀ e, goForwardCmd h = some e ↔
      ∃ entry, jsIndex (h.entries.getD []) (h.currentIndex.getD 0 + 1) = some entry ∧
        entry.id = e) := by
  constructor
  · intro e
    unfold goBackCmd
    by_cases hidx : h.currentIndex.getD 0 > 0
    · rw [if_pos hidx]
      cases hj : jsIndex (h.entries.getD []) (h.currentIndex.getD 0 - 1) with
      | some entry => simp [hj]
      | none => simp [hj]
    · rw [if_neg hidx]
      have hneg : h.currentIndex.getD 0 - 1 < 0 := by omega
      rw [jsIndex_neg _ _ hneg]
      simp
  · intro e
    unfold goForwardCmd
    by_cases hidx : h.currentIndex.getD 0 < ((h.entries.getD []).length : Int) - 1
    · rw [if_pos hidx]
      cases hj : jsIndex (h.entries.getD []) (h.currentIndex.getD 0 + 1) with
      | some entry => simp [hj]
      | none => simp [hj]
    · rw [if_neg hidx]
      have hnone : jsIndex (h.entries.getD []) (h.currentIndex.getD 0 + 1) = none := by
        unfold jsIndex
        by_cases hneg : h.currentIndex.getD 0 + 1 < 0
        · rw [if_pos hneg]
        · rw [if_neg hneg]
          apply List.get?_eq_none.mpr
          omega
      rw [hnone]
      simp

def c9Hist : NavHistory :=
  { currentIndex := some 1,
    entries := some [{ id := 100 }, { id := 200 }, { id := 300 }] }

theorem c9_back_forward_neighbors_witness :
    goBackCmd c9Hist = some 100 ∧
    goForwardCmd c9Hist = some 300 ∧
    goBackCmd { currentIndex := some 0, entries := some [{ id := 100 }] } = none ∧
    goForwardCmd { currentIndex := some 0, entries := some [{ id := 100 }] } = none := by
  refine ⟨?_, ?_, by decide, by decide⟩
  · exact ((c9_back_forward_neighbors c9Hist).1 100).mpr ⟨{ id := 100 }, by decide, rfl⟩
  · exact ((c9_back_forward_neighbors c9Hist).2 300).mpr ⟨{ id := 300 }, by decide, rfl⟩

/-! ## Network-idle detection (`waitForNetworkIdle` in navigation.ts)

The in-flight counter and the single idle timer, driven by the three network
events; time is explicit, `deadline` is the absolute overall-timeout instant
(the wait starts at time 0 with `deadline = timeoutMs`).  The model computes
the resolution instant; the source's promise has no rejection path (`_reject`
is unused), which the total `Nat` result mirrors. -/

inductive NetEvent where
  | start
  | finish
  | fail
deriving DecidableEq

structure TimedEvent where
  t : Nat
  ev : NetEvent
deriving DecidableEq

structure IdleState where
  inflight : Nat
  timer : Option Nat
deriving DecidableEq

/-- `checkIdle` at time `now`: cancel any pending idle timer and (re)arm it at
`now + idleMs` whenever the counter is at zero. -/
def checkIdle (idleMs now : Nat) (s : IdleState) : IdleState :=
  { s with timer := if s.inflight = 0 then some (now + idleMs) else none }

/-- The event handlers: a request-start increments the counter and cancels any
pending idle timer; a finish or failure decrements floored at 0 (`Nat`
subtraction) and runs `checkIdle`. -/
def stepEvent (idleMs : Nat) (e : TimedEvent) (s : IdleState) : IdleState :=
  match e.ev with
  | .start => { inflight := s.inflight + 1, timer := none }
  | .finish => checkIdle idleMs e.t { s with inflight := s.inflight - 1 }
  | .fail => checkIdle idleMs e.t { s with inflight := s.inflight - 1 }

/-- State when the wait begins: counter 0, `checkIdle` run at time 0. -/
def initIdle (idleMs : Nat) : IdleState :=
  checkIdle idleMs 0 { inflight := 0, timer := none }

/-- Resolution instant of the wait on a chronological event trace: an armed
idle timer, or the overall deadline, that elapses strictly before the next
event resolves the wait; with no events left the earlier of the armed timer
and the deadline resolves it.  Resolution always happens — there is no
rejection. -/
def runIdle (idleMs deadline : Nat) : List TimedEvent → IdleState → Nat
  | [], s =>
      match s.timer with
      | some d => min d deadline
      | none => deadline
  | e :: rest, s =>
      let cand :=
        match s.timer with
        | some d => min d deadline
        | none => deadline
      if cand < e.t then cand
      else runIdle idleMs deadline rest (stepEvent idleMs e s)

theorem runIdle_le_deadline (idleMs deadline : Nat) :
    ∀ evs s, runIdle idleMs deadline evs s ≤ deadline := by
  intro evs
  induction evs with
  | nil =>
      intro s
      unfold runIdle
      cases s.timer with
      | some d => exact Nat.min_le_right d deadline
      | none => exact Nat.le_refl deadline
  | cons e rest ih =>
      intro s
      unfold runIdle
      cases ht : s.timer with
      | some d =>
          simp only
          by_cases hc : min d deadline < e.t
          · rw [if_pos hc]
            exact Nat.min_le_right d deadline
          · rw [if_neg hc]
            exact ih (stepEvent idleMs e s)
      | none =>
          simp only
          by_cases hc : deadline < e.t
          · rw [if_pos hc]
          · rw [if_neg hc]
            exact ih (stepEvent idleMs e s)

theorem runIdle_armed (idleMs deadline : Nat) :
    ∀ evs (s : IdleState) (d : Nat), s.timer = some d → (∀ e ∈ evs, d < e.t) →
      runIdle idleMs deadline evs s = min d deadline := by
  intro evs
  induction evs with
  | nil =>
      intro s d ht _
      unfold runIdle
      rw [ht]
  | cons e rest _ih =>
      intro s d ht hall
      unfold runIdle
      rw [ht]
      simp only
      have hde : d < e.t := hall e (List.mem_cons_self e rest)
      have hc : min d deadline < e.t := Nat.lt_of_le_of_lt (Nat.min_le_left d deadline) hde
      rw [if_pos hc]

/-- Claim C6 counterexample to the stated idle window: on the trace
`start@10, finish@20, finish@400` (the second finish is a spurious decrement —
the counter is already 0 and stays 0), the counter reaches zero at t = 20 and
no request-start event ever arrives, yet the wait resolves at t = 900, far
beyond 20 + 500: the stray finish re-armed the idle timer. -/
theorem c6_counterexample :
    runIdle 500 30000 [⟨10, NetEvent.start⟩, ⟨20, NetEvent.finish⟩,
        ⟨400, NetEvent.finish⟩] (initIdle 500) = 900 ∧
    stepEvent 500 ⟨20, NetEvent.finish⟩
        (stepEvent 500 ⟨10, NetEvent.start⟩ (initIdle 500)) =
      { inflight := 0, timer := some 520 } ∧
    ([⟨10, NetEvent.start⟩, ⟨20, NetEvent.finish⟩, ⟨400, NetEvent.finish⟩] :
        List TimedEvent).filter
        (fun e => decide (e.ev = NetEvent.start) && decide (20 < e.t) &&
          decide (e.t ≤ 520)) = [] ∧
    520 < 900 := by
  decide

/-- Claim C6 (amended): the wait never rejects and always resolves by the
overall deadline; it resolves within `idleMs` of the last network event that
leaves the counter at zero provided no further event (start, finish or fail —
a finish/fail with the counter at zero re-arms the idle window) arrives within
that window; a request-start increments the counter and cancels the idle
timer; a finish or failure decrements the counter floored at 0 and re-arms the
idle timer at its own time exactly when the counter is left at zero. -/
theorem c6_network_idle_amended (idleMs deadline : Nat) :
    (∀ evs s, runIdle idleMs deadline evs s ≤ deadline) ∧
    (∀ (e : TimedEvent) rest (s : IdleState),
      (e.ev = NetEvent.finish ∨ e.ev = NetEvent.fail) → s.inflight ≤ 1 →
      (∀ e' ∈ rest, e.t + idleMs < e'.t) →
      runIdle idleMs deadline (e :: rest) s ≤ e.t + idleMs) ∧
    (∀ (e : TimedEvent) (s : IdleState), e.ev = NetEvent.start →
      stepEvent idleMs e s = { inflight := s.inflight + 1, timer := none }) ∧
    (∀ (e : TimedEvent) (s : IdleState),
      (e.ev = NetEvent.finish ∨ e.ev = NetEvent.fail) →
      (stepEvent idleMs e s).inflight = s.inflight - 1 ∧
      (stepEvent idleMs e s).timer =
        (if s.inflight - 1 = 0 then some (e.t + idleMs) else none)) := by
  refine ⟨runIdle_le_deadline idleMs deadline, ?_, ?_, ?_⟩
  · intro e rest s hev hone hwin
    have hstep : (stepEvent idleMs e s).timer = some (e.t + idleMs) := by
      rcases hev with h | h <;>
        · rw [stepEvent, h]
          simp only [checkIdle]
          rw [if_pos (by omega)]
    unfold runIdle
    cases ht : s.timer with
    | some d =>
        simp only
        by_cases hc : min d deadline < e.t
        · rw [if_pos hc]
          have := Nat.min_le_right d deadline
          omega
        · rw [if_neg hc]
          rw [runIdle_armed idleMs deadline rest (stepEvent idleMs e s)
            (e.t + idleMs) hstep hwin]
          exact Nat.min_le_left _ _
    | none =>
        simp only
        by_cases hc : deadline < e.t
        · rw [if_pos hc]
          omega
        · rw [if_neg hc]
          rw [runIdle_armed idleMs deadline rest (stepEvent idleMs e s)
            (e.t + idleMs) hstep hwin]
          exact Nat.min_le_left _ _
  · intro e s hev
    rw [stepEvent, hev]
  · intro e s hev
    rcases hev with h | h <;>
      · rw [stepEvent, h]
        exact ⟨rfl, rfl⟩

theorem c6_network_idle_amended_witness :
    runIdle 500 30000 [⟨10, NetEvent.start⟩, ⟨20, NetEvent.finish⟩]
      (initIdle 500) ≤ 30000 ∧
    runIdle 500 30000 [⟨20, NetEvent.finish⟩]
      { inflight := 1, timer := none } ≤ 20 + 500 ∧
    stepEvent 500 ⟨10, NetEvent.start⟩ (initIdle 500) =
      { inflight := 1, timer := none } := by
  obtain ⟨ha, hb, hc, _hd⟩ := c6_network_idle_amended 500 30000
  refine ⟨ha _ _, ?_, ?_⟩
  · exact hb ⟨20, NetEvent.finish⟩ [] { inflight := 1, timer := none }
      (Or.inl rfl) (by decide) (by simp)
  · exact (hc ⟨10, NetEvent.start⟩ (initIdle 500) rfl).trans (by decide)

end Nanoclaw
